import Mathlib

/-!
Shallow embedding of `wlines_run` (src/main.rs), a launcher helper that
indexes executables, ranks them by a frecency score, pipes them to an
external line picker, and launches the chosen one.

Pure data (structs, the extension allow-list, the frecency formula, the
comparator, the selection matcher, the history update) is translated
directly from the Rust source.  Filesystem traversal, process spawning and
the picker exchange are I/O; they appear as explicit inputs (the list of
discovered files, the picker's exit status and stdout line, whether the
launch spawn succeeded).  `f64` arithmetic is modelled over `ℝ`; Rust
`u32` overflow is modelled with an explicit `% 2^32`.
-/

/-- `struct HistoryEntry { rank: u32, access: u64 }` (main.rs:15-19).
`rank` and `access` are machine integers; `rank` is reduced mod `2^32`
where the code increments it. -/
structure HistoryEntry where
  rank : Nat
  access : Nat
deriving DecidableEq

/-- `enum SourceType { StartMenu, Path }` (main.rs:21-26). -/
inductive SourceType where
  | StartMenu
  | Path
deriving DecidableEq

/-- `SourceType::display_name` (main.rs:28-35). -/
def SourceType.display_name : SourceType → String
  | .StartMenu => "S"
  | .Path => "P"

/-- `struct Program { title, source, abs_path }` (main.rs:37-42). -/
structure Program where
  title : String
  source : SourceType
  abs_path : String
deriving DecidableEq

/-- `const EXTENSIONS` (main.rs:49). -/
def EXTENSIONS : List String := ["exe", "lnk", "bat", "cmd", "com"]

/-- Rust `char::to_ascii_lowercase`: only ASCII `A`-`Z` is mapped. -/
def asciiLowerChar (c : Char) : Char :=
  if 'A' ≤ c ∧ c ≤ 'Z' then Char.ofNat (c.toNat + 32) else c

/-- Rust `str::to_ascii_lowercase` (used at main.rs:72 for the catalog key). -/
def toAsciiLower (s : String) : String := String.mk (s.data.map asciiLowerChar)

/-- Split a character list at every separator character (like
`str::split`): `[[]]` on the empty input, separators not kept. -/
def splitChars (sep : Char → Bool) : List Char → List (List Char)
  | [] => [[]]
  | c :: cs =>
    if sep c then [] :: splitChars sep cs
    else
      match splitChars sep cs with
      | [] => [[c]]
      | w :: ws => (c :: w) :: ws

/-- Final path component, splitting on both Windows separators (what Rust
`Path::file_name` yields for the paths this program builds). -/
def fileName (p : String) : String :=
  String.mk ((splitChars (fun c => c == '/' || c == '\\') p.data).getLastD [])

/-- Rust `Path::extension` on the file name: `none` when there is no `.`,
or when the only `.` is the leading one of a hidden file; otherwise the
part after the final `.` (main.rs:66). -/
def fileExtension (p : String) : Option String :=
  match splitChars (fun c => c == '.') (fileName p).data with
  | [] => none
  | [_] => none
  | [[], _] => none
  | parts => parts.getLast?.map String.mk

/-- The file filter of `index_directory` (main.rs:66-67): the file is kept
iff it has an extension and that extension, compared case-SENSITIVELY
(`e == ext` on byte strings), is in `EXTENSIONS`. -/
def acceptsFile (path : String) : Bool :=
  match fileExtension path with
  | none => false
  | some ext => EXTENSIONS.contains ext

/-- Association-list model of `HashMap<String, Program>::insert`:
replace the value at an existing key, else append a new binding. -/
def mapInsert : List (String × Program) → String → Program → List (String × Program)
  | [], k, v => [(k, v)]
  | (k', v') :: rest, k, v =>
    if k' == k then (k, v) :: rest else (k', v') :: mapInsert rest k v

/-- Association-list model of `HashMap<String, Program>` lookup. -/
def mapLookup : List (String × Program) → String → Option Program
  | [], _ => none
  | (k', v') :: rest, k => if k' == k then some v' else mapLookup rest k

/-- One file discovered by the directory walk: its absolute path and the
title `path.strip_prefix(prefix)` relative to the discovery root
(main.rs:68-70). -/
structure DiscoveredFile where
  absPath : String
  title : String
deriving DecidableEq

/-- The body of `index_directory`'s per-file step (main.rs:65-79): keep the
file iff `acceptsFile`, keyed by the ASCII-lowercased absolute path, the
stored `abs_path` being the original-case path. -/
def indexDirectoryStep (source : SourceType) (m : List (String × Program))
    (f : DiscoveredFile) : List (String × Program) :=
  if acceptsFile f.absPath then
    mapInsert m (toAsciiLower f.absPath) ⟨f.title, source, f.absPath⟩
  else m

/-- `index_directory` over an already-walked list of discovered files
(main.rs:55-86); the walk itself is I/O and is passed in as the list. -/
def indexFiles (source : SourceType) (files : List DiscoveredFile)
    (m : List (String × Program)) : List (String × Program) :=
  files.foldl (indexDirectoryStep source) m

/-- The argument of the square root in `frecency` (main.rs:52):
`(current_time as f64) - (history.access as f64)`, an exact integer
difference with no clamping. -/
def sqrtArg (history : HistoryEntry) (current_time : Nat) : Int :=
  (current_time : Int) - (history.access : Int)

/-- `frecency` (main.rs:51-53), with `f64` modelled over `ℝ`:
`rank / (sqrt(now - access) / 10 + 5)`.  (`Real.sqrt` agrees with `f64`
square root only on non-negative arguments; `sqrtArg` tracks the sign,
which the Rust code leaves unclamped.) -/
noncomputable def frecency (history : HistoryEntry) (current_time : Nat) : ℝ :=
  (history.rank : ℝ) / (Real.sqrt ((sqrtArg history current_time : Int) : ℝ) / 10 + 5)

/-- The comparator passed to `programs.sort_by` (main.rs:155-167).  In the
source the two-record branch is `b_score.partial_cmp(&a_score).unwrap()`:
`.lt` (a first) exactly when b's score is below a's. -/
noncomputable def progCmp (history : String → Option HistoryEntry) (time_now : Nat)
    (a b : Program) : Ordering :=
  match history a.abs_path, history b.abs_path with
  | some ha, some hb =>
    if frecency hb time_now < frecency ha time_now then .lt
    else if frecency ha time_now < frecency hb time_now then .gt
    else .eq
  | some _, none => .lt
  | none, some _ => .gt
  | none, none => compare a.title b.title

/-- `format_program_display_name` (main.rs:121-123):
`"<marker>] " + title`. -/
def format_program_display_name (program : Program) : String :=
  program.source.display_name ++ "] " ++ program.title

/-- The `prog_name_links` vector (main.rs:170-173). -/
def progNameLinks (programs : List Program) : List (String × Program) :=
  programs.map (fun program => (format_program_display_name program, program))

/-- The candidate text sent to the picker's stdin (main.rs:177-181):
each label followed by `": \n"`. -/
def pickerInput (links : List (String × Program)) : String :=
  links.foldl (fun acc l => acc ++ l.1 ++ ": \n") ""

/-- Whitespace recognised by the `shlex` crate's splitter. -/
def isShlexWS (c : Char) : Bool := c == ' ' || c == '\t' || c == '\n'

/-- Lexer mode of the `shlex` splitter: outside quotes, inside single
quotes, inside double quotes, inside a `#` comment. -/
inductive ShMode where
  | norm
  | single
  | double
  | comment
deriving DecidableEq

/-- State machine of `shlex::split` (the `shlex` crate used at main.rs:216):
POSIX-style word splitting.  `started` records whether a word is open,
`cur` is the current word reversed, `acc` the finished words reversed.
Returns `none` on an unclosed quote or a trailing bare backslash. -/
def shlexGo : List Char → ShMode → Bool → List Char → List (List Char) →
    Option (List (List Char))
  | [], .norm, started, cur, acc =>
    some (if started then (cur.reverse :: acc).reverse else acc.reverse)
  | [], .comment, _, _, acc => some acc.reverse
  | [], .single, _, _, _ => none
  | [], .double, _, _, _ => none
  | c :: cs, .norm, started, cur, acc =>
    if isShlexWS c then
      if started then shlexGo cs .norm false [] (cur.reverse :: acc)
      else shlexGo cs .norm false [] acc
    else if c == '#' && !started then
      shlexGo cs .comment false [] acc
    else if c == '\'' then shlexGo cs .single true cur acc
    else if c == '"' then shlexGo cs .double true cur acc
    else if c == '\\' then
      match cs with
      | [] => none
      | c2 :: cs' =>
        if c2 == '\n' then shlexGo cs' .norm true cur acc
        else shlexGo cs' .norm true (c2 :: cur) acc
    else shlexGo cs .norm true (c :: cur) acc
  | c :: cs, .comment, _, _, acc =>
    if c == '\n' then shlexGo cs .norm false [] acc
    else shlexGo cs .comment false [] acc
  | c :: cs, .single, _, cur, acc =>
    if c == '\'' then shlexGo cs .norm true cur acc
    else shlexGo cs .single true (c :: cur) acc
  | c :: cs, .double, _, cur, acc =>
    if c == '"' then shlexGo cs .norm true cur acc
    else if c == '\\' then
      match cs with
      | [] => none
      | c2 :: cs' =>
        if c2 == '$' || c2 == '`' || c2 == '"' || c2 == '\\' then
          shlexGo cs' .double true (c2 :: cur) acc
        else if c2 == '\n' then shlexGo cs' .double true cur acc
        else shlexGo cs' .double true (c2 :: '\\' :: cur) acc
    else shlexGo cs .double true (c :: cur) acc

/-- `shlex::split` (called at main.rs:216): `none` models the erroneous
input case where the Rust function returns `None`. -/
def shlexSplit (s : String) : Option (List String) :=
  (shlexGo s.data .norm false [] []).map (List.map (fun w => String.mk w))

/-- Rust `str::trim` (main.rs:200), over ASCII whitespace: strip leading
and trailing whitespace characters. -/
def strTrim (s : String) : String :=
  String.mk (((s.data.dropWhile isShlexWS).reverse.dropWhile isShlexWS).reverse)

/-- Rust `str::starts_with` (main.rs:203); character-wise comparison
(identical to Rust's byte-wise one on this program's data). -/
def strStartsWith (s pat : String) : Bool := pat.data.isPrefixOf s.data

/-- Rust `str::len` (main.rs:213): character count, equal to the byte
count Rust uses on ASCII data. -/
def strLength (s : String) : Nat := s.data.length

/-- The Rust slice `s[n..]` (main.rs:215). -/
def strDropn (s : String) (n : Nat) : String := String.mk (s.data.drop n)

/-- In-memory `History` map (`HashMap<String, HistoryEntry>`), as a
function from keys to optional records. -/
def Hist : Type := String → Option HistoryEntry

/-- The history update of `cmd_run` (main.rs:234-248): bump the record at
the key — the chosen program's `abs_path` as stored — or insert a fresh
`{rank: 1, access: time_now}` one.  `rank += 1` is `u32` arithmetic. -/
def recordLaunch (history : Hist) (key : String) (time_now : Nat) : Hist :=
  fun k =>
    if k = key then
      some (match history key with
        | some entry => ⟨(entry.rank + 1) % 2 ^ 32, time_now⟩
        | none => ⟨1, time_now⟩)
    else history k

/-- How one `cmd_run` invocation ends, after the picker has exited.
`panicTokenize` is the `shlex::split(..).unwrap()` panic (main.rs:216),
`panicLaunch` the `spawn().expect(..)` panic (main.rs:228-231). -/
inductive Outcome where
  | cancelled
  | unmatched (line : String)
  | panicTokenize
  | panicLaunch
  | launched (prog : Program) (args : List String)
deriving DecidableEq

/-- Result of one `cmd_run` invocation: how it ended, the in-memory
history at the end, and whether the history file was rewritten. -/
structure RunResult where
  outcome : Outcome
  history : Hist
  persisted : Bool

/-- `cmd_run` from the point the picker exits (main.rs:194-252), over the
already-sorted program list.  I/O appears as inputs: `exitOk` is the
picker's exit status, `stdout` its raw output, `launchOk` whether the
`cmd /c start` spawn succeeded. -/
def cmdRunCore (sortedPrograms : List Program) (history : Hist) (time_now : Nat)
    (exitOk : Bool) (stdout : String) (launchOk : Bool) : RunResult :=
  let links := progNameLinks sortedPrograms
  if !exitOk then ⟨.cancelled, history, false⟩
  else
    let input_string := strTrim stdout
    match links.find? (fun l => strStartsWith input_string (l.1 ++ ":")) with
    | none => ⟨.unmatched input_string, history, false⟩
    | some chosen_prog =>
      let prog_args? : Option (List String) :=
        if strLength chosen_prog.1 + 1 < strLength input_string then
          shlexSplit (strDropn input_string (strLength chosen_prog.1 + 1))
        else some []
      match prog_args? with
      | none => ⟨.panicTokenize, history, false⟩
      | some prog_args =>
        if !launchOk then ⟨.panicLaunch, history, false⟩
        else ⟨.launched chosen_prog.2 prog_args,
              recordLaunch history chosen_prog.2.abs_path time_now, true⟩

/-- The empty history map (absent history file, main.rs:145-147). -/
def histEmpty : Hist := fun _ => none

/-- A sample catalog entry found on the PATH. -/
def pNotepad : Program := ⟨"notepad", .Path, "C:\\Windows\\notepad.exe"⟩

/-- A sample catalog entry whose absolute path has upper-case letters. -/
def pUpper : Program := ⟨"A.EXE", .Path, "C:\\A.EXE"⟩

/-- A second entry with a history record (B in the spec's frecency test). -/
def pB : Program := ⟨"btitle", .Path, "C:\\b.exe"⟩

/-- An entry with a history record (A in the spec's frecency test). -/
def pA : Program := ⟨"atitle", .Path, "C:\\a.exe"⟩

/-- An entry without a history record. -/
def pC : Program := ⟨"ctitle", .Path, "C:\\c.exe"⟩

/-- Another entry without a history record. -/
def pD : Program := ⟨"dtitle", .Path, "C:\\d.exe"⟩

/-- A sample history: A launched 5 times, 10 s before `now = 10000`;
B launched once, 10000 s before. -/
def histW : Hist := fun k =>
  if k = "C:\\a.exe" then some ⟨5, 9990⟩
  else if k = "C:\\b.exe" then some ⟨1, 0⟩
  else none

/-- C1 (code bug): `frecency` does not clamp `now - last_access`: for a
record whose `last_access` (100) is ahead of `now` (0), the argument
handed to the square root is the negative number `-100`, violating the
spec's requirement that it never be negative (in `f64` this square root
is NaN, and the sort's `partial_cmp(..).unwrap()` then panics). -/
theorem frecency_sqrt_argument_not_clamped :
    sqrtArg ⟨1, 100⟩ 0 = -100 ∧ sqrtArg ⟨1, 100⟩ 0 < 0 := by
  constructor
  · decide
  · decide

/-- C7: recording a launch bumps an existing record's rank by one (as a
`u32`) and overwrites its `last_access`, or inserts `{rank 1, access t}`;
recording twice on a fresh path gives rank 2 and the later timestamp. -/
theorem recordLaunch_spec :
    ∀ (h : Hist) (p : String) (t1 t2 : Nat),
      (h p = none → recordLaunch h p t1 p = some ⟨1, t1⟩)
      ∧ (∀ e, h p = some e → e.rank + 1 < 2 ^ 32 →
          recordLaunch h p t1 p = some ⟨e.rank + 1, t1⟩)
      ∧ (h p = none → t1 ≤ t2 →
          recordLaunch (recordLaunch h p t1) p t2 p = some ⟨2, t2⟩) := by
  intro h p t1 t2
  refine ⟨?_, ?_, ?_⟩
  · intro hp
    simp [recordLaunch, hp]
  · intro e hp hlt
    have hstep : recordLaunch h p t1 p = some ⟨(e.rank + 1) % 2 ^ 32, t1⟩ := by
      simp [recordLaunch, hp]
    rw [hstep, Nat.mod_eq_of_lt hlt]
  · intro hp _
    simp [recordLaunch, hp]

/-- Witness for `recordLaunch_spec` at concrete inputs. -/
theorem recordLaunch_spec_witness :
    recordLaunch histEmpty "C:\\x.exe" 3 "C:\\x.exe" = some ⟨1, 3⟩
    ∧ recordLaunch (fun k => if k = "C:\\x.exe" then some ⟨7, 0⟩ else none)
        "C:\\x.exe" 3 "C:\\x.exe" = some ⟨8, 3⟩
    ∧ recordLaunch (recordLaunch histEmpty "C:\\x.exe" 3) "C:\\x.exe" 4 "C:\\x.exe"
        = some ⟨2, 4⟩ := by
  refine ⟨(recordLaunch_spec histEmpty "C:\\x.exe" 3 4).1 rfl,
    ?_, (recordLaunch_spec histEmpty "C:\\x.exe" 3 4).2.2 rfl (by norm_num)⟩
  exact (recordLaunch_spec (fun k => if k = "C:\\x.exe" then some ⟨7, 0⟩ else none)
    "C:\\x.exe" 3 4).2.1 ⟨7, 0⟩ (by simp) (by norm_num)

/-- Unfolding equation of `cmdRunCore` for a cancelled picker
(main.rs:194-197). -/
theorem cmdRunCore_cancel (progs : List Program) (h : Hist) (now : Nat) (stdout : String)
    (lok : Bool) : cmdRunCore progs h now false stdout lok = ⟨.cancelled, h, false⟩ := rfl

/-- Unfolding equation of `cmdRunCore` after a successful picker exit. -/
theorem cmdRunCore_exit_ok (progs : List Program) (h : Hist) (now : Nat) (stdout : String)
    (lok : Bool) :
    cmdRunCore progs h now true stdout lok =
      (match (progNameLinks progs).find?
          (fun l => strStartsWith (strTrim stdout) (l.1 ++ ":")) with
       | none => ⟨.unmatched (strTrim stdout), h, false⟩
       | some chosen_prog =>
         match (if strLength chosen_prog.1 + 1 < strLength (strTrim stdout) then
                  shlexSplit (strDropn (strTrim stdout) (strLength chosen_prog.1 + 1))
                else some []) with
         | none => ⟨.panicTokenize, h, false⟩
         | some prog_args =>
           if !lok then ⟨.panicLaunch, h, false⟩
           else ⟨.launched chosen_prog.2 prog_args,
                 recordLaunch h chosen_prog.2.abs_path now, true⟩) := rfl

/-- C3 counterexample: a launch of the program with absolute path
`"C:\A.EXE"` stores its history record under the key `"C:\A.EXE"`
verbatim, not under the case-folded key `"c:\a.exe"` — so the history key
is not the case-folded canonical path. -/
theorem history_key_not_case_folded :
    (cmdRunCore [pUpper] histEmpty 7 true "P] A.EXE:" true).history "C:\\A.EXE"
      = some ⟨1, 7⟩
    ∧ (cmdRunCore [pUpper] histEmpty 7 true "P] A.EXE:" true).history
        (toAsciiLower "C:\\A.EXE") = none
    ∧ toAsciiLower "C:\\A.EXE" ≠ "C:\\A.EXE" :=
  ⟨by decide, by decide, by decide⟩

/-- C3 amended: every history operation is keyed by the program's
`abs_path` exactly as stored in the index (original letter case, not the
case-folded catalog key): `recordLaunch` touches exactly the key it is
given, and a launched run updates history exactly at the chosen
program's `abs_path`. -/
theorem history_key_is_verbatim_abs_path :
    ∀ (h : Hist) (p : String) (t : Nat) (k : String),
      (recordLaunch h p t p
        = some ⟨(match h p with | some e => (e.rank + 1) % 2 ^ 32 | none => 1), t⟩)
      ∧ (k ≠ p → recordLaunch h p t k = h k)
      ∧ (∀ (progs : List Program) (now : Nat) (stdout : String) (prog : Program)
            (args : List String),
          (cmdRunCore progs h now true stdout true).outcome = Outcome.launched prog args →
          (cmdRunCore progs h now true stdout true).history
            = recordLaunch h prog.abs_path now) := by
  intro h p t k
  refine ⟨?_, ?_, ?_⟩
  · cases hp : h p <;> simp [recordLaunch, hp]
  · intro hk
    simp [recordLaunch, hk]
  · intro progs now stdout prog args
    rw [cmdRunCore_exit_ok]
    split
    · intro hout
      simp at hout
    · split
      · intro hout
        simp at hout
      · split
        · intro hout
          simp at hout
        · intro hout
          simp only [Outcome.launched.injEq] at hout
          rw [hout.1]

/-- Witness for `history_key_is_verbatim_abs_path` at concrete inputs. -/
theorem history_key_is_verbatim_abs_path_witness :
    recordLaunch histEmpty "C:\\A.EXE" 7 "C:\\A.EXE" = some ⟨1, 7⟩
    ∧ recordLaunch histEmpty "C:\\A.EXE" 7 "c:\\a.exe" = histEmpty "c:\\a.exe"
    ∧ (cmdRunCore [pUpper] histEmpty 7 true "P] A.EXE:" true).history
        = recordLaunch histEmpty pUpper.abs_path 7 := by
  obtain ⟨w1, w2, w3⟩ := history_key_is_verbatim_abs_path histEmpty "C:\\A.EXE" 7 "c:\\a.exe"
  exact ⟨w1, w2 (by decide), w3 [pUpper] 7 "P] A.EXE:" pUpper [] (by decide)⟩

/-- C5 counterexample: when the argument tail is malformed (`"oops` with
an unclosed quote), the run does not end with a reported
unrecognized-choice condition: it aborts in the `unwrap()` panic of
`shlex::split` (main.rs:216), i.e. it crashes. -/
theorem tokenize_failure_is_panic :
    (cmdRunCore [pNotepad] histEmpty 0 true "P] notepad: \"oops" true).outcome
      = Outcome.panicTokenize := by decide

/-- C5 amended: a token-split failure aborts the run via the `unwrap`
panic before any history mutation: History is unchanged and not
re-persisted, but the failure is a crash, not a reported
unrecognized-choice message. -/
theorem tokenize_failure_aborts_without_mutation :
    ∀ (progs : List Program) (h : Hist) (now : Nat) (stdout : String) (lok : Bool)
      (chosen : String × Program),
      (progNameLinks progs).find? (fun l => strStartsWith (strTrim stdout) (l.1 ++ ":"))
        = some chosen →
      strLength chosen.1 + 1 < strLength (strTrim stdout) →
      shlexSplit (strDropn (strTrim stdout) (strLength chosen.1 + 1)) = none →
      (cmdRunCore progs h now true stdout lok).outcome = Outcome.panicTokenize
      ∧ (cmdRunCore progs h now true stdout lok).history = h
      ∧ (cmdRunCore progs h now true stdout lok).persisted = false := by
  intro progs h now stdout lok chosen hFind hLen hTok
  rw [cmdRunCore_exit_ok]
  split
  · next heq =>
    rw [hFind] at heq
    cases heq
  · next c heq =>
    rw [hFind] at heq
    injection heq with heq'
    subst heq'
    split
    · exact ⟨rfl, rfl, rfl⟩
    · next as heq2 =>
      rw [if_pos hLen, hTok] at heq2
      cases heq2

/-- Witness for `tokenize_failure_aborts_without_mutation` at a concrete
malformed input. -/
theorem tokenize_failure_witness :
    (cmdRunCore [pNotepad] histEmpty 0 true "P] notepad: \"oops" true).history = histEmpty
    ∧ (cmdRunCore [pNotepad] histEmpty 0 true "P] notepad: \"oops" true).persisted
        = false := by
  obtain ⟨-, h2, h3⟩ := tokenize_failure_aborts_without_mutation [pNotepad] histEmpty 0
    "P] notepad: \"oops" true ("P] notepad", pNotepad) (by decide) (by decide) (by decide)
  exact ⟨h2, h3⟩

/-- C6: selection matching finds an entry whose rendered label followed by
`":"` is a string-prefix of the (trimmed) picker line, and reports an
unmatched selection otherwise: `"P] notepad: file.txt"` launches the
notepad entry with argument `file.txt`, while `"P] notepad"` (no
delimiter) matches nothing and is reported unmatched. -/
theorem selection_matching_spec :
    (∀ (progs : List Program) (line : String) (l : String × Program),
        (progNameLinks progs).find? (fun e => strStartsWith line (e.1 ++ ":")) = some l →
        strStartsWith line (l.1 ++ ":") = true)
    ∧ (∀ (progs : List Program) (line : String),
        (progNameLinks progs).find? (fun e => strStartsWith line (e.1 ++ ":")) = none →
        ∀ l ∈ progNameLinks progs, ¬ strStartsWith line (l.1 ++ ":") = true)
    ∧ format_program_display_name pNotepad = "P] notepad"
    ∧ (cmdRunCore [pNotepad] histEmpty 0 true "P] notepad: file.txt" true).outcome
        = Outcome.launched pNotepad ["file.txt"]
    ∧ (cmdRunCore [pNotepad] histEmpty 0 true "P] notepad" true).outcome
        = Outcome.unmatched "P] notepad" := by
  refine ⟨?_, ?_, by decide, by decide, by decide⟩
  · intro progs line l hf
    have h2 := List.find?_some hf
    simpa using h2
  · intro progs line hf l hl
    rw [List.find?_eq_none] at hf
    exact hf l hl

/-- Witness for `selection_matching_spec` at concrete lines. -/
theorem selection_matching_spec_witness :
    strStartsWith "P] notepad: file.txt" ("P] notepad" ++ ":") = true
    ∧ ¬ strStartsWith "P] notepad" ("P] notepad" ++ ":") = true := by
  constructor
  · exact selection_matching_spec.1 [pNotepad] "P] notepad: file.txt"
      ("P] notepad", pNotepad) (by decide)
  · exact selection_matching_spec.2.1 [pNotepad] "P] notepad" (by decide)
      ("P] notepad", pNotepad) (by decide)

/-- C8: a non-success picker exit, and a line matching no rendered label,
both leave History exactly as loaded and do not re-persist it. -/
theorem cancel_unmatched_leave_history :
    ∀ (progs : List Program) (h : Hist) (now : Nat) (stdout : String) (lok : Bool),
      ((cmdRunCore progs h now false stdout lok).history = h
        ∧ (cmdRunCore progs h now false stdout lok).persisted = false
        ∧ (cmdRunCore progs h now false stdout lok).outcome = Outcome.cancelled)
      ∧ ((progNameLinks progs).find? (fun l => strStartsWith (strTrim stdout) (l.1 ++ ":"))
            = none →
          (cmdRunCore progs h now true stdout lok).history = h
          ∧ (cmdRunCore progs h now true stdout lok).persisted = false
          ∧ (cmdRunCore progs h now true stdout lok).outcome
              = Outcome.unmatched (strTrim stdout)) := by
  intro progs h now stdout lok
  constructor
  · rw [cmdRunCore_cancel]
    exact ⟨rfl, rfl, rfl⟩
  · intro hFind
    rw [cmdRunCore_exit_ok]
    split
    · exact ⟨rfl, rfl, rfl⟩
    · next c heq =>
      rw [hFind] at heq
      cases heq

/-- Witness for `cancel_unmatched_leave_history` at concrete runs. -/
theorem cancel_unmatched_leave_history_witness :
    (cmdRunCore [pNotepad] histEmpty 0 false "anything" true).history = histEmpty
    ∧ (cmdRunCore [pNotepad] histEmpty 0 false "anything" true).persisted = false
    ∧ (cmdRunCore [pNotepad] histEmpty 0 true "nonsense" true).history = histEmpty
    ∧ (cmdRunCore [pNotepad] histEmpty 0 true "nonsense" true).persisted = false := by
  obtain ⟨⟨a1, a2, -⟩, -⟩ := cancel_unmatched_leave_history [pNotepad] histEmpty 0 "anything" true
  obtain ⟨-, hb⟩ := cancel_unmatched_leave_history [pNotepad] histEmpty 0 "nonsense" true
  obtain ⟨b1, b2, -⟩ := hb (by decide)
  exact ⟨a1, a2, b1, b2⟩

/-- C10: History is mutated and persisted only when the launch spawn
succeeded: a failed spawn aborts (panic in `expect`, main.rs:228-231)
with History unchanged and not written, and any run that persisted
History necessarily launched a program. -/
theorem launch_failure_leaves_history :
    ∀ (progs : List Program) (h : Hist) (now : Nat) (stdout : String),
      ((cmdRunCore progs h now true stdout false).history = h
        ∧ (cmdRunCore progs h now true stdout false).persisted = false)
      ∧ (∀ (exitOk lok : Bool),
          (cmdRunCore progs h now exitOk stdout lok).persisted = true →
          lok = true ∧ exitOk = true
          ∧ ∃ prog args, (cmdRunCore progs h now exitOk stdout lok).outcome
              = Outcome.launched prog args) := by
  intro progs h now stdout
  constructor
  · rw [cmdRunCore_exit_ok]
    split
    · exact ⟨rfl, rfl⟩
    · split
      · exact ⟨rfl, rfl⟩
      · split
        · exact ⟨rfl, rfl⟩
        · next hnl =>
          simp at hnl
  · intro exitOk lok
    cases exitOk with
    | false =>
      rw [cmdRunCore_cancel]
      intro hp
      simp at hp
    | true =>
      rw [cmdRunCore_exit_ok]
      split
      · intro hp
        simp at hp
      · next c heq =>
        split
        · intro hp
          simp at hp
        · next as heq2 =>
          split
          · intro hp
            simp at hp
          · next hlok =>
            intro _
            have hlok2 : lok = true := by
              cases lok
              · exact absurd rfl hlok
              · rfl
            exact ⟨hlok2, rfl, c.2, as, rfl⟩

/-- Witness for `launch_failure_leaves_history`: a concrete run with a
matched selection and a successful spawn persists History and reports the
launch. -/
theorem launch_failure_leaves_history_witness :
    (cmdRunCore [pNotepad] histEmpty 7 true "P] notepad:" true).persisted = true
    ∧ (∃ prog args, (cmdRunCore [pNotepad] histEmpty 7 true "P] notepad:" true).outcome
        = Outcome.launched prog args)
    ∧ (cmdRunCore [pNotepad] histEmpty 7 true "P] notepad:" false).history = histEmpty := by
  obtain ⟨ha, hb⟩ := launch_failure_leaves_history [pNotepad] histEmpty 7 "P] notepad:"
  obtain ⟨-, -, hex⟩ := hb true true (by decide)
  exact ⟨by decide, hex, ha.1⟩

/-- C2 counterexample: `tool.EXE` has extension `EXE`, whose
ASCII-lowercasing is in the allow-list, yet indexing it yields no catalog
entry — so the extension comparison is not case-insensitive and an
upper-case `tool.EXE` does not "always appear". -/
theorem extension_filter_rejects_uppercase :
    indexFiles .Path [⟨"C:\\bin\\tool.EXE", "tool.EXE"⟩] [] = []
    ∧ fileExtension "C:\\bin\\tool.EXE" = some "EXE"
    ∧ toAsciiLower "EXE" ∈ EXTENSIONS := by
  refine ⟨by decide, by decide, by decide⟩

/-- C2 amended: a discovered file enters the catalog iff its extension,
compared case-SENSITIVELY, is in the fixed allow-list
{exe, lnk, bat, cmd, com}: `tool.exe` is accepted, `tool.txt` rejected
(and `tool.EXE` rejected, per the counterexample). -/
theorem extension_filter_case_sensitive :
    (∀ f : DiscoveredFile, fileExtension f.absPath = none → acceptsFile f.absPath = false)
    ∧ (∀ (f : DiscoveredFile) (ext : String), fileExtension f.absPath = some ext →
        (acceptsFile f.absPath = true ↔ ext ∈ EXTENSIONS))
    ∧ (∀ (src : SourceType) (m : List (String × Program)) (f : DiscoveredFile),
        indexFiles src [f] m = if acceptsFile f.absPath
          then mapInsert m (toAsciiLower f.absPath) ⟨f.title, src, f.absPath⟩ else m)
    ∧ mapLookup (indexFiles .Path [⟨"C:\\bin\\tool.exe", "tool.exe"⟩] []) "c:\\bin\\tool.exe"
        = some ⟨"tool.exe", .Path, "C:\\bin\\tool.exe"⟩
    ∧ indexFiles .Path [⟨"C:\\bin\\tool.txt", "tool.txt"⟩] [] = [] := by
  refine ⟨?_, ?_, ?_, by decide, by decide⟩
  · intro f hext
    simp [acceptsFile, hext]
  · intro f ext hext
    simp only [acceptsFile, hext]
    exact List.elem_iff
  · intro src m f
    rfl

/-- Witness for `extension_filter_case_sensitive` at concrete files. -/
theorem extension_filter_case_sensitive_witness :
    acceptsFile "C:\\bin\\noext" = false
    ∧ (acceptsFile "C:\\bin\\tool.exe" = true ↔ "exe" ∈ EXTENSIONS) := by
  constructor
  · exact extension_filter_case_sensitive.1 ⟨"C:\\bin\\noext", "noext"⟩ (by decide)
  · exact extension_filter_case_sensitive.2.1 ⟨"C:\\bin\\tool.exe", "tool.exe"⟩ "exe" (by decide)

theorem mapLookup_mapInsert_self (m : List (String × Program)) (k : String) (v : Program) :
    mapLookup (mapInsert m k v) k = some v := by
  induction m with
  | nil => simp [mapInsert, mapLookup]
  | cons kv rest ih =>
    obtain ⟨k', v'⟩ := kv
    by_cases hk : k' = k
    · simp [mapInsert, mapLookup, hk]
    · simp [mapInsert, mapLookup, hk, ih]

theorem mem_mapInsert {m : List (String × Program)} {k : String} {v : Program}
    {e : String × Program} (he : e ∈ mapInsert m k v) : e ∈ m ∨ e = (k, v) := by
  induction m with
  | nil => simpa [mapInsert] using he
  | cons kv rest ih =>
    obtain ⟨k', v'⟩ := kv
    by_cases hk : (k' == k) = true
    · rw [mapInsert, if_pos hk] at he
      rcases List.mem_cons.mp he with h | h
      · exact Or.inr h
      · exact Or.inl (List.mem_cons_of_mem _ h)
    · rw [mapInsert, if_neg hk] at he
      rcases List.mem_cons.mp he with h | h
      · exact Or.inl (h ▸ List.mem_cons_self _ _)
      · rcases ih h with h2 | h2
        · exact Or.inl (List.mem_cons_of_mem _ h2)
        · exact Or.inr h2

theorem mem_keys_mapInsert {m : List (String × Program)} {k j : String} {v : Program}
    (hj : j ∈ (mapInsert m k v).map Prod.fst) : j ∈ m.map Prod.fst ∨ j = k := by
  rw [List.mem_map] at hj
  obtain ⟨e, he, hfst⟩ := hj
  rcases mem_mapInsert he with h | h
  · exact Or.inl (List.mem_map.mpr ⟨e, h, hfst⟩)
  · subst h
    exact Or.inr hfst.symm

theorem keys_nodup_mapInsert {m : List (String × Program)} (k : String) (v : Program)
    (hm : (m.map Prod.fst).Nodup) : ((mapInsert m k v).map Prod.fst).Nodup := by
  induction m with
  | nil => simp [mapInsert]
  | cons kv rest ih =>
    obtain ⟨k', v'⟩ := kv
    simp only [List.map_cons, List.nodup_cons] at hm
    by_cases hk : (k' == k) = true
    · rw [mapInsert, if_pos hk]
      have hkk : k' = k := by simpa using hk
      simp only [List.map_cons, List.nodup_cons]
      exact ⟨hkk ▸ hm.1, hm.2⟩
    · rw [mapInsert, if_neg hk]
      simp only [List.map_cons, List.nodup_cons]
      refine ⟨?_, ih hm.2⟩
      intro hmem
      rcases mem_keys_mapInsert hmem with h1 | h1
      · exact hm.1 h1
      · exact hk (by simp [h1])

theorem indexFiles_keys_nodup (src : SourceType) (files : List DiscoveredFile) :
    ∀ m : List (String × Program), (m.map Prod.fst).Nodup →
      ((indexFiles src files m).map Prod.fst).Nodup := by
  induction files with
  | nil =>
    intro m hm
    simpa [indexFiles] using hm
  | cons f fs ih =>
    intro m hm
    show ((indexFiles src fs (indexDirectoryStep src m f)).map Prod.fst).Nodup
    apply ih
    rw [indexDirectoryStep]
    split
    · exact keys_nodup_mapInsert _ _ hm
    · exact hm

theorem mem_indexFiles_key_folded (src : SourceType) (files : List DiscoveredFile) :
    ∀ m : List (String × Program), (∀ e ∈ m, e.1 = toAsciiLower e.2.abs_path) →
      ∀ e ∈ indexFiles src files m, e.1 = toAsciiLower e.2.abs_path := by
  induction files with
  | nil =>
    intro m hm
    simpa [indexFiles] using hm
  | cons f fs ih =>
    intro m hm
    show ∀ e ∈ indexFiles src fs (indexDirectoryStep src m f), e.1 = toAsciiLower e.2.abs_path
    refine ih _ ?_
    intro e he
    by_cases ha : acceptsFile f.absPath = true
    · rw [indexDirectoryStep, if_pos ha] at he
      rcases mem_mapInsert he with h | h
      · exact hm e h
      · subst h
        rfl
    · rw [indexDirectoryStep, if_neg ha] at he
      exact hm e he

/-- C9: the catalog keeps exactly one entry per case-folded absolute path:
starting from the empty map the key list stays duplicate-free, every entry
is keyed by the ASCII-lowercased `abs_path` of its program, a later file
folding to the same key overwrites the earlier one, and indexing two files
whose paths differ only in case yields exactly one entry under the folded
key, holding the later file. -/
theorem index_dedup_case_folded :
    (∀ (src : SourceType) (files : List DiscoveredFile),
        ((indexFiles src files []).map Prod.fst).Nodup)
    ∧ (∀ (src : SourceType) (files : List DiscoveredFile),
        ∀ e ∈ indexFiles src files [], e.1 = toAsciiLower e.2.abs_path)
    ∧ (∀ (src : SourceType) (m : List (String × Program)) (f1 f2 : DiscoveredFile),
        acceptsFile f2.absPath = true →
        toAsciiLower f1.absPath = toAsciiLower f2.absPath →
        mapLookup (indexFiles src [f1, f2] m) (toAsciiLower f2.absPath)
          = some ⟨f2.title, src, f2.absPath⟩)
    ∧ indexFiles .Path [⟨"C:\\Tool.exe", "Tool.exe"⟩, ⟨"c:\\TOOL.exe", "TOOL.exe"⟩] []
        = [("c:\\tool.exe", ⟨"TOOL.exe", SourceType.Path, "c:\\TOOL.exe"⟩)] := by
  refine ⟨?_, ?_, ?_, by decide⟩
  · intro src files
    exact indexFiles_keys_nodup src files [] (by simp)
  · intro src files
    exact mem_indexFiles_key_folded src files [] (by simp)
  · intro src m f1 f2 ha _
    show mapLookup (indexDirectoryStep src (indexDirectoryStep src m f1) f2)
      (toAsciiLower f2.absPath) = _
    rw [indexDirectoryStep, if_pos ha]
    exact mapLookup_mapInsert_self _ _ _

/-- Witness for `index_dedup_case_folded`: two files whose paths differ
only in letter case, the later one winning under the folded key. -/
theorem index_dedup_case_folded_witness :
    mapLookup (indexFiles .Path [⟨"C:\\Tool.exe", "Tool.exe"⟩, ⟨"c:\\TOOL.exe", "TOOL.exe"⟩] [])
        (toAsciiLower "c:\\TOOL.exe")
      = some ⟨"TOOL.exe", .Path, "c:\\TOOL.exe"⟩ := by
  exact index_dedup_case_folded.2.2.1 .Path [] ⟨"C:\\Tool.exe", "Tool.exe"⟩
    ⟨"c:\\TOOL.exe", "TOOL.exe"⟩ (by decide) (by decide)

/-- C4: the sort comparator (which, under the stable `sort_by`, determines
the display order) puts an entry with a history record before one
without; among two entries with records, the higher frecency score comes
first; among two entries without records, the order is the ascending
lexicographic comparison of their display titles. -/
theorem display_order_spec :
    ∀ (history : String → Option HistoryEntry) (time_now : Nat) (a b : Program),
      (∀ ha, history a.abs_path = some ha → history b.abs_path = none →
          progCmp history time_now a b = Ordering.lt)
      ∧ (∀ hb, history a.abs_path = none → history b.abs_path = some hb →
          progCmp history time_now a b = Ordering.gt)
      ∧ (∀ ha hb, history a.abs_path = some ha → history b.abs_path = some hb →
          frecency hb time_now < frecency ha time_now →
          progCmp history time_now a b = Ordering.lt)
      ∧ (∀ ha hb, history a.abs_path = some ha → history b.abs_path = some hb →
          frecency ha time_now < frecency hb time_now →
          progCmp history time_now a b = Ordering.gt)
      ∧ (history a.abs_path = none → history b.abs_path = none →
          progCmp history time_now a b = compare a.title b.title) := by
  intro history time_now a b
  refine ⟨?_, ?_, ?_, ?_, ?_⟩
  · intro ha h1 h2
    simp [progCmp, h1, h2]
  · intro hb h1 h2
    simp [progCmp, h1, h2]
  · intro ha hb h1 h2 hlt
    simp only [progCmp, h1, h2]
    rw [if_pos hlt]
  · intro ha hb h1 h2 hlt
    simp only [progCmp, h1, h2]
    rw [if_neg (lt_asymm hlt), if_pos hlt]
  · intro h1 h2
    simp [progCmp, h1, h2]

/-- The spec's frecency example: B (rank 1, last accessed 10000 s before
`now`) scores strictly below A (rank 5, last accessed 10 s before). -/
theorem frecency_example_lt :
    frecency ⟨1, 0⟩ 10000 < frecency ⟨5, 9990⟩ 10000 := by
  unfold frecency sqrtArg
  norm_num
  have h100 : Real.sqrt 10000 = 100 := by
    rw [show (10000 : ℝ) = 100 ^ 2 by norm_num]
    exact Real.sqrt_sq (by norm_num)
  have h10a : (0 : ℝ) ≤ Real.sqrt 10 := Real.sqrt_nonneg 10
  have h10b : Real.sqrt 10 ≤ 4 := by
    have h16 : Real.sqrt 16 = 4 := by
      rw [show (16 : ℝ) = 4 ^ 2 by norm_num]
      exact Real.sqrt_sq (by norm_num)
    calc Real.sqrt 10 ≤ Real.sqrt 16 := Real.sqrt_le_sqrt (by norm_num)
    _ = 4 := h16
  rw [h100]
  have hd : (0 : ℝ) < Real.sqrt 10 / 10 + 5 := by linarith
  rw [lt_div_iff₀ hd]
  nlinarith

/-- Witness for `display_order_spec` on concrete entries: A (rank 5,
10 s old) sorts before B (rank 1, 10000 s old); history beats
no-history; two history-less entries compare by title. -/
theorem display_order_spec_witness :
    progCmp histW 10000 pA pC = Ordering.lt
    ∧ progCmp histW 10000 pC pB = Ordering.gt
    ∧ progCmp histW 10000 pA pB = Ordering.lt
    ∧ progCmp histW 10000 pB pA = Ordering.gt
    ∧ progCmp histW 10000 pC pD = compare pC.title pD.title := by
  obtain ⟨c1, -, -, -, -⟩ := display_order_spec histW 10000 pA pC
  obtain ⟨-, c2, -, -, -⟩ := display_order_spec histW 10000 pC pB
  obtain ⟨-, -, c3, -, -⟩ := display_order_spec histW 10000 pA pB
  obtain ⟨-, -, -, c4, -⟩ := display_order_spec histW 10000 pB pA
  obtain ⟨-, -, -, -, c5⟩ := display_order_spec histW 10000 pC pD
  exact ⟨c1 ⟨5, 9990⟩ (by decide) (by decide),
    c2 ⟨1, 0⟩ (by decide) (by decide),
    c3 ⟨5, 9990⟩ ⟨1, 0⟩ (by decide) (by decide) frecency_example_lt,
    c4 ⟨1, 0⟩ ⟨5, 9990⟩ (by decide) (by decide) frecency_example_lt,
    c5 (by decide) (by decide)⟩
